import Mathlib

/-!
Shallow embedding of `src/media_process.h` (MediaProcess pipeline engine):
the composite builder (`BaseMediaProcess::init` overload chain), the base
input dispatch, the Runloop lifecycle, the worker-pool pipe
(`BaseMediaProcessThreadedPipe`) graceful exit, and the watermark cache
pipe (`BaseMediaProcessCachePipe`).  Media elements are identified by
their reference identity (the `shared_ptr` address), embedded as `Nat`.
-/

namespace MediaProcess

/-- Errors the engine can raise.  `notSupport` embeds
`std::runtime_error("not support.")`, `notImpl` embeds
`std::runtime_error("not impl.")`, `badFunctionCall` embeds the
`std::bad_function_call` raised when an empty `std::function` is invoked,
`outOfRange` embeds `std::out_of_range` (which the dispatch never uses). -/
inductive MPError
  | notSupport
  | notImpl
  | badFunctionCall
  | outOfRange
  deriving DecidableEq, Repr

/-- The stage kinds of `MediaProcessType`. -/
inductive MPKind
  | pipe
  | join
  | split
  | multiplex
  | generator
  | collapsar
  | runloop
  deriving DecidableEq, Repr

/-! ## Base input dispatch (`BaseMediaProcess::input`)

`input(index, me)` is `inputHandlers_[index](me)`.  `std::map::operator[]`
on an absent key default-constructs the mapped value — an *empty*
`std::function` — inserts it, and invoking it throws
`std::bad_function_call`.  A handler map entry is the target
(child stage id, child port); `none` is an empty `std::function`. -/

/-- The input-handler map: composite input index to an optional dispatch
target; `none` models a default-constructed (empty) `std::function`. -/
abbrev HandlerMap := List (Nat × Option (Nat × Nat))

/-- Lookup in the handler map (first match, as `std::map` has unique keys). -/
def hfind : HandlerMap → Nat → Option (Option (Nat × Nat))
  | [], _ => none
  | (k, v) :: rest, key => if k = key then some v else hfind rest key

/-- `BaseMediaProcess::input`: dispatch on `inputHandlers_[index]`.
Returns the delivery outcome (the target invoked, or the error raised)
and the handler map after the call (`operator[]` inserts an empty handler
for an absent key). -/
def baseInput (handlers : HandlerMap) (index : Nat) :
    Except MPError (Nat × Nat) × HandlerMap :=
  match hfind handlers index with
  | some (some t) => (.ok t, handlers)
  | some none => (.error .badFunctionCall, handlers)
  | none => (.error .badFunctionCall, handlers ++ [(index, none)])

/-- `generate()` as resolved through the class hierarchy: every
non-generating leaf kind (`Pipe`, `Join`, `Split`, `Multiplex`,
`Collapsar`) overrides it to throw `"not support."`; the base Generator
returns `false`; `Runloop` inherits `BaseMediaProcess::generate`, which
forwards to the stored generator proxy or throws `"not impl."`. -/
def classGenerate (k : MPKind) (generatorField : Option Nat)
    (childGen : Nat → Bool) : Except MPError Bool :=
  match k with
  | .pipe => .error .notSupport
  | .join => .error .notSupport
  | .split => .error .notSupport
  | .multiplex => .error .notSupport
  | .collapsar => .error .notSupport
  | .generator => .ok false
  | .runloop =>
      match generatorField with
      | some g => .ok (childGen g)
      | none => .error .notImpl

/-! ## Runloop (`BaseMediaProcessRunloop::stop`,
`BaseMediaProcess::interrupt`)

`stop()` under the lock: if not running, return at once; else clear the
running flag, then (outside the lock) `interrupt()` — which walks `mps_`
in reverse (`rbegin`/`rend`) calling each child's `interrupt()` — and
join `proc_` when joinable. -/

structure RunloopState where
  running : Bool
  /-- child stage ids in construction order (`mps_`). -/
  children : List Nat
  /-- whether the execution unit spawned by `start()` is joinable. -/
  joinable : Bool
  deriving DecidableEq, Repr

/-- Observable outcome of `BaseMediaProcessRunloop::stop`. -/
structure StopResult where
  state : RunloopState
  /-- child ids on which `interrupt()` was called, in call order. -/
  interrupted : List Nat
  /-- whether the caller joined (blocked on) the execution unit. -/
  joined : Bool
  deriving DecidableEq, Repr

/-- `BaseMediaProcessRunloop::stop`. -/
def runloopStop (s : RunloopState) : StopResult :=
  if s.running then
    ⟨{ s with running := false }, s.children.reverse, s.joinable⟩
  else
    ⟨s, [], false⟩

/-! ## Worker-pool pipe (`BaseMediaProcessThreadedPipe`)

The per-worker tail of `run_` (after the `while (running_)` loop) runs
under `postRunMutex_`, so across the `N` workers these sections execute
sequentially; we embed the shared state they touch and iterate the
section. -/

structure TPState where
  /-- the single-slot mailbox `me_` (element identity or empty). -/
  me : Option Nat
  /-- elements passed to `outputHandlers_[0]`, in emission order. -/
  emitted : List Nat
  /-- `stopGraceful_`. -/
  stopGraceful : Bool
  /-- whether `outputHandlers_` has an entry for port 0. -/
  hasHandler : Bool
  deriving DecidableEq, Repr

/-- The "last call for graceful exit" section at the end of
`BaseMediaProcessThreadedPipe::run_`: under `postRunMutex_`, if
`stopGraceful_` and the mailbox still holds an element, emit it on port 0
(when a handler is registered) and clear the mailbox.  `process()` is not
invoked on this path. -/
def gracefulExit (s : TPState) : TPState :=
  if s.stopGraceful then
    match s.me with
    | some e =>
        { s with
          emitted := s.emitted ++ (if s.hasHandler then [e] else []),
          me := none }
    | none => s
  else s

/-- All `n` workers execute the graceful-exit section, one after the
other (serialized by `postRunMutex_`). -/
def allWorkersExit (n : Nat) (s : TPState) : TPState :=
  gracefulExit^[n] s

/-! ## Watermark cache pipe (`BaseMediaProcessCachePipe`)

`cache_` is a `std::set<std::shared_ptr<BaseMediaElement>>`: ordered by
reference identity, duplicates absorbed.  We embed it as a strictly
sorted list of element ids; `setInsert` is `std::set::insert` and the
head of the list is `cache_.begin()`. -/

/-- Ordered-set insertion (`std::set::insert`): keeps the list strictly
sorted, absorbs an element already present. -/
def setInsert (x : Nat) : List Nat → List Nat
  | [] => [x]
  | y :: ys =>
      if x < y then x :: y :: ys
      else if x = y then y :: ys
      else y :: setInsert x ys

structure CachePipeState where
  running : Bool
  stopGraceful : Bool
  lowLevel : Nat
  highLevel : Nat
  /-- `cache_` as a strictly sorted list of element ids. -/
  cache : List Nat
  deriving DecidableEq, Repr

/-- Outcome of one pass of `BaseMediaProcessCachePipe::input` up to its
next suspension point. -/
inductive CacheInputOutcome
  /-- inserted into `cache_`; the flag records whether `firstCond_` was
  notified (`cache_.size() == 1` after the insert). -/
  | inserted (s : CachePipeState) (notifiedFirst : Bool)
  /-- buffer at or above `highLevel_` and the policy hook declined: the
  producer blocks on `enterLowCond_`. -/
  | blocked
  /-- buffer at or above `highLevel_` and `dealHighLevel` returned true:
  return without enqueuing. -/
  | rejected
  /-- `running_` is false: the `while (running_)` body is not entered. -/
  | notRunning
  deriving DecidableEq, Repr

/-- `BaseMediaProcessCachePipe::input` (one pass to the next suspension
point).  `policy` is the overridable `dealHighLevel` hook (the base
implementation is `fun _ => false`). -/
def cacheInput (policy : Nat → Bool) (s : CachePipeState) (x : Nat) :
    CacheInputOutcome :=
  if s.running then
    if s.cache.length ≥ s.highLevel then
      if policy x then .rejected else .blocked
    else
      .inserted { s with cache := setInsert x s.cache }
        (decide ((setInsert x s.cache).length = 1))
  else .notRunning

/-- One iteration of the drain loop in `BaseMediaProcessCachePipe::run_`:
if the cache is nonempty, take `*cache_.begin()` (the least element),
erase it, and notify `enterLowCond_` exactly when the new size equals
`lowLevel_`; the removed element is then forwarded on port 0.  Returns
(element picked out, state after, whether a producer was woken). -/
def cacheDrainStep (s : CachePipeState) :
    Option Nat × CachePipeState × Bool :=
  match s.cache with
  | [] => (none, s, false)
  | me :: rest =>
      (some me, { s with cache := rest }, decide (rest.length = s.lowLevel))

/-- `BaseMediaProcessCachePipe::stop`: record the graceful flag, clear
`running_`, notify all waiters. -/
def cacheStop (graceful : Bool) (s : CachePipeState) : CachePipeState :=
  { s with stopGraceful := graceful, running := false }

/-- The tail of `BaseMediaProcessCachePipe::run_` after the drain loop
exits: when `stopGraceful_`, emit every element remaining in `cache_` in
set order on port 0 (when a handler is registered) and clear the cache;
otherwise emit nothing.  Either way `running_` ends false.  Returns the
list of elements emitted and the final state. -/
def cacheFinalDrain (s : CachePipeState) (hasHandler : Bool) :
    List Nat × CachePipeState :=
  if s.stopGraceful then
    ((if hasHandler then s.cache else []),
      { s with cache := [], running := false })
  else
    ([], { s with running := false })

/-! ## Composite builder (`BaseMediaProcess::init` overload chain)

The variadic constructor `BaseMediaProcess(Args... args)` calls
`init(0, args...)`.  Each argument is one level: either a single
`shared_ptr<BaseMediaProcess>` (the scalar overload) or a
`vector<shared_ptr<BaseMediaProcess>>`.  A child stage is embedded by its
identity and its port counts; the wiring done with `setOutputHandler` on
the children is recorded in a map from (child id, output port) to the
installed handler. -/

/-- A child stage as the builder observes it: its identity (the
`shared_ptr` address), its `getType()`, and its port counts. -/
structure Stage where
  sid : Nat
  kind : MPKind
  inputCount : Nat
  outputCount : Nat
  deriving DecidableEq, Repr

/-- One constructor argument: a single stage or a vector of stages. -/
inductive Arg
  | scalar (mp : Stage)
  | vec (mps : List Stage)
  deriving DecidableEq, Repr

/-- The stages of one level (the scalar overload wraps its stage in a
one-element vector before recursing). -/
def Arg.stages : Arg → List Stage
  | .scalar mp => [mp]
  | .vec mps => mps

def sumInputs (l : List Stage) : Nat := (l.map Stage.inputCount).sum

def sumOutputs (l : List Stage) : Nat := (l.map Stage.outputCount).sum

/-- What `setOutputHandler` installs on a child's output port. -/
inductive Handler
  /-- a closure forwarding to child stage `sid`'s input port `port`. -/
  | toChild (sid : Nat) (port : Nat)
  /-- the terminal trampoline for composite output index `j`
  (forwards to `outputHandlers_[j]` when registered, else drops). -/
  | trampoline (j : Nat)
  deriving DecidableEq, Repr

/-- The output-handler wiring installed on the child stages:
(child id, output port) mapped to the installed handler; later
`setOutputHandler` calls shadow earlier ones (newest entry first). -/
abbrev Wiring := List ((Nat × Nat) × Handler)

/-- Lookup of a child's installed output handler (newest entry wins,
as `std::map` assignment overwrites). -/
def wfind : Wiring → Nat × Nat → Option Handler
  | [], _ => none
  | (k, h) :: rest, key => if k = key then some h else wfind rest key

/-- The construction state of `BaseMediaProcess` during `init`:
`inputCount_`, `outputCount_`, `mpsPrev_`, `prevOutputCount_`, `mps_`,
`inputHandlers_` (composite input index to (child id, child port)),
the generator proxy `generator_` (the child id it forwards to), and the
wiring installed on children so far. -/
structure InitState where
  inputCount : Nat
  outputCount : Nat
  mpsPrev : List Stage
  prevOutputCount : Nat
  mps : List Stage
  inputHandlers : List (Nat × (Nat × Nat))
  generator : Option Nat
  wired : Wiring
  deriving DecidableEq, Repr

/-- The state of a default-constructed `BaseMediaProcess`. -/
def InitState.initial : InitState := ⟨0, 0, [], 0, [], [], none, []⟩

/-- The level-0 branch of the vector overload: for each stage, retain it
in `mps_` and register one composite input handler per input port,
numbering composite inputs consecutively with `inputCount_`. -/
def collectInputs (mps : List Stage) (st : InitState) : InitState :=
  List.foldl
    (fun st mp =>
      { st with
        mps := st.mps ++ [mp],
        inputHandlers := st.inputHandlers ++
          (List.range mp.inputCount).map
            (fun i => (st.inputCount + i, (mp.sid, i))),
        inputCount := st.inputCount + mp.inputCount })
    st mps

/-- The `funcs` vector built in the level-`k>0` branch: one forwarding
closure per input port of the level, in stage-then-port order. -/
def levelFuncs (mps : List Stage) : List (Nat × Nat) :=
  List.foldr (fun mp acc =>
    (List.range mp.inputCount).map (fun i => (mp.sid, i)) ++ acc) [] mps

/-- The previous level's output ports in stage-then-port order (the
`j`-indexed traversal of `mpsPrev_`). -/
def prevPorts (mpsPrev : List Stage) : List (Nat × Nat) :=
  List.foldr (fun mp acc =>
    (List.range mp.outputCount).map (fun i => (mp.sid, i)) ++ acc) [] mpsPrev

/-- Wire each previous-level output port to the matching `funcs[j]`
(`mp->setOutputHandler(i, funcs[j]); ++j`). -/
def wirePrev (mpsPrev : List Stage) (funcs : List (Nat × Nat))
    (w : Wiring) : Wiring :=
  List.foldl (fun w pf => ((pf.1.1, pf.1.2), Handler.toChild pf.2.1 pf.2.2) :: w)
    w (List.zip (prevPorts mpsPrev) funcs)

/-- The tail of each level's processing: `mpsPrev_ := mps;`
`prevOutputCount_ := sum of their output counts`. -/
def savePrev (mps : List Stage) (st : InitState) : InitState :=
  { st with mpsPrev := mps, prevOutputCount := sumOutputs mps }

/-- The scalar overload's level-0 generator check: a single stage with
zero input ports installs the generator proxy (regardless of the stage's
kind — the code tests only `mp->getInputCount() == 0`). -/
def genStep (level : Nat) (a : Arg) (st : InitState) : InitState :=
  match a with
  | .scalar mp =>
      if level = 0 ∧ mp.inputCount = 0 then { st with generator := some mp.sid }
      else st
  | .vec _ => st

/-- The terminal overload `init(level)`: expose the last level's output
ports as composite outputs through trampolines, numbering them from 0. -/
def wireTerminal (st : InitState) : InitState :=
  { st with
    outputCount := st.outputCount + sumOutputs st.mpsPrev,
    wired := List.foldl (fun w pj => ((pj.2.1, pj.2.2), Handler.trampoline pj.1) :: w)
      st.wired (prevPorts st.mpsPrev).enum }

/-- The arity-mismatch message thrown by the level-`k>0` branch. -/
def arityMsg : String := "previous output not match current input."

/-- A construction failure: the thrown message together with the state
(in particular the wiring already installed on the externally held child
stages) at the moment of the throw. -/
structure BuildError where
  msg : String
  state : InitState
  deriving DecidableEq, Repr

/-- The `init` overload chain.  Each argument is one level; the scalar
overload applies the generator check and wraps its stage; the vector
overload collects level-0 inputs or, for `level > 0`, builds `funcs`,
checks `funcs.size() != prevOutputCount_` (throwing the arity error), and
wires the previous level's outputs; the terminal overload wires the
trampolines. -/
def initArgs : Nat → List Arg → InitState → Except BuildError InitState
  | _, [], st => .ok (wireTerminal st)
  | level, a :: rest, st =>
      let st1 := genStep level a st
      if level = 0 then
        initArgs (level + 1) rest (savePrev a.stages (collectInputs a.stages st1))
      else
        let st2 := { st1 with mps := st1.mps ++ a.stages }
        let funcs := levelFuncs a.stages
        if funcs.length ≠ st2.prevOutputCount then
          .error ⟨arityMsg, st2⟩
        else
          initArgs (level + 1) rest
            (savePrev a.stages
              { st2 with wired := wirePrev st2.mpsPrev funcs st2.wired })

/-- `BaseMediaProcess(Args... args)`, i.e. `init(0, args...)` from the
default-constructed state. -/
def buildComposite (args : List Arg) : Except BuildError InitState :=
  initArgs 0 args InitState.initial

/-- `BaseMediaProcess::generate`: forward to the generator proxy when
installed, else throw `"not impl."`.  `childGen` evaluates a child's
`generate()`. -/
def compositeGenerate (st : InitState) (childGen : Nat → Bool) :
    Except MPError Bool :=
  match st.generator with
  | some g => .ok (childGen g)
  | none => .error .notImpl

/-! ## Helpers for observing build results -/

/-- Whether construction succeeded. -/
def isOkB : Except BuildError InitState → Bool
  | .ok _ => true
  | .error _ => false

/-- The state at the moment of a construction failure (the wiring
recorded there lives on the externally held child stages). -/
def errState : Except BuildError InitState → InitState
  | .error e => e.state
  | .ok _ => InitState.initial

/-- The thrown message of a construction failure. -/
def errMsg : Except BuildError InitState → String
  | .error e => e.msg
  | .ok _ => ""

/-- The constructed state of a successful build. -/
def okState : Except BuildError InitState → InitState
  | .ok st => st
  | .error _ => InitState.initial

/-- Concrete stages: a 0-in/1-out generator, a 1-in/1-out pipe, a
2-in/1-out join, a 1-in/0-out sink, a 0-in/1-out multiplex. -/
def genStage : Stage := ⟨0, .generator, 0, 1⟩

def pipeStage : Stage := ⟨1, .pipe, 1, 1⟩

def joinStage : Stage := ⟨2, .join, 2, 1⟩

def sinkStage : Stage := ⟨3, .collapsar, 1, 0⟩

def muxStage : Stage := ⟨0, .multiplex, 0, 1⟩

/-- Levels whose third level (2 inputs) mismatches the second (1 output):
generator → pipe → join. -/
def mismatchArgs : List Arg := [.scalar genStage, .scalar pipeStage, .scalar joinStage]

/-- A two-level composite headed by a scalar zero-input stage that is not
a Generator. -/
def muxHeadArgs : List Arg := [.scalar muxStage, .scalar sinkStage]

/-! ## Auxiliary views of the builder's recursion, used to state and
prove the construction theorems. -/

/-- The state transformation of one level-0 step of `initArgs`. -/
def step0 (a : Arg) (st : InitState) : InitState :=
  savePrev a.stages (collectInputs a.stages (genStep 0 a st))

/-- The state transformation of one matched level-`k>0` step of
`initArgs`. -/
def stepK (a : Arg) (st : InitState) : InitState :=
  savePrev a.stages
    { st with
      mps := st.mps ++ a.stages,
      wired := wirePrev st.mpsPrev (levelFuncs a.stages) st.wired }

/-- Whether every level of `pre`, processed by `initArgs` from `st` at
the given level number, passes the arity check. -/
def matchedPre : Nat → InitState → List Arg → Bool
  | _, _, [] => true
  | level, st, a :: rest =>
      if level = 0 then matchedPre 1 (step0 a st) rest
      else
        decide (sumInputs a.stages = st.prevOutputCount) &&
          matchedPre (level + 1) (stepK a st) rest

/-- The state after `initArgs` has processed the levels of `pre` from
`st` (ignoring arity failures; coincides with the real run on a
`matchedPre` prefix). -/
def runPre : Nat → InitState → List Arg → InitState
  | _, st, [] => st
  | level, st, a :: rest =>
      if level = 0 then runPre 1 (step0 a st) rest
      else runPre (level + 1) (stepK a st) rest

/-- The stage ids of a list of stages. -/
def stageSids (l : List Stage) : List Nat := l.map Stage.sid

/-- All stage ids occurring in a list of levels. -/
def argsSids (args : List Arg) : List Nat :=
  List.foldr (fun a acc => stageSids a.stages ++ acc) [] args

/-- The ids of the source stages of the installed wiring. -/
def wiredSids (w : Wiring) : List Nat := w.map (fun p => p.1.1)

/-- The stages of the last level: the last element of `rest` when there
is one, else the `mpsPrev_` already saved in `st`. -/
def lastStages (st : InitState) (rest : List Arg) : List Stage :=
  match rest.getLast? with
  | some a => a.stages
  | none => st.mpsPrev

/-- The generator proxy installed for a given first level: the scalar
overload installs it exactly for a single stage with zero input ports. -/
def argGen : Arg → Option Nat
  | .scalar mp => if mp.inputCount = 0 then some mp.sid else none
  | .vec _ => none

/-- The stages of the last level of a list of levels. -/
def lastArgStages (pre : List Arg) : List Stage :=
  match pre.getLast? with
  | some a => a.stages
  | none => []

/-! ## Supporting lemmas -/

theorem setInsert_length_le (x : Nat) (l : List Nat) :
    (setInsert x l).length ≤ l.length + 1 := by
  induction l with
  | nil => simp [setInsert]
  | cons y ys ih =>
      by_cases h1 : x < y
      · simp [setInsert, h1]
      · by_cases h2 : x = y
        · simp [setInsert, h1, h2]
        · simp only [setInsert, if_neg h1, if_neg h2, List.length_cons]
          omega

theorem setInsert_eq_of_mem (x : Nat) (l : List Nat)
    (hs : List.Pairwise (· < ·) l) (hm : x ∈ l) : setInsert x l = l := by
  induction l with
  | nil => cases hm
  | cons y ys ih =>
      rcases List.mem_cons.mp hm with h | h
      · subst h
        simp [setInsert]
      · have hyx : y < x := (List.pairwise_cons.mp hs).1 x h
        have h1 : ¬ x < y := by omega
        have h2 : ¬ x = y := by omega
        simp only [setInsert, if_neg h1, if_neg h2]
        rw [ih (List.pairwise_cons.mp hs).2 h]

theorem hfind_eq_none (handlers : HandlerMap) (index : Nat)
    (h : ∀ p ∈ handlers, p.1 ≠ index) : hfind handlers index = none := by
  induction handlers with
  | nil => rfl
  | cons p rest ih =>
      have hne : p.1 ≠ index := h p (List.mem_cons_self p rest)
      simp only [hfind]
      rw [if_neg hne]
      exact ih (fun q hq => h q (List.mem_cons_of_mem p hq))

theorem gracefulExit_empty_slot (l : List Nat) (hh : Bool) :
    gracefulExit ⟨none, l, true, hh⟩ = ⟨none, l, true, hh⟩ := by
  simp [gracefulExit]

theorem allWorkersExit_empty_slot (n : Nat) (l : List Nat) (hh : Bool) :
    allWorkersExit n ⟨none, l, true, hh⟩ = ⟨none, l, true, hh⟩ := by
  induction n with
  | zero => rfl
  | succ m ih =>
      unfold allWorkersExit at ih ⊢
      rw [Function.iterate_succ_apply, gracefulExit_empty_slot, ih]

/-! ## Claim theorems (watermark pipe, worker pool, runloop, dispatch) -/

/-- C3: for the watermark-buffered pipe with `lowLevel ≤ highLevel` and a
buffer currently within its bound, (a) while running, `input()` at
`size ≥ highLevel` never inserts: it blocks, or returns without enqueuing
exactly when the `dealHighLevel` policy hook returns true; (b) whatever
`input()` does, the buffer stays within `highLevel`; (c) the drain step,
after removing one element, wakes a blocked producer precisely when the
new size equals `lowLevel`. -/
theorem cachePipe_watermark_contract (policy : Nat → Bool)
    (s : CachePipeState) (x : Nat)
    (hwm : s.lowLevel ≤ s.highLevel) (hlen : s.cache.length ≤ s.highLevel) :
    (s.running = true → s.highLevel ≤ s.cache.length →
      cacheInput policy s x =
        (if policy x then .rejected else .blocked)) ∧
    (∀ s' nf, cacheInput policy s x = .inserted s' nf →
      s'.cache.length ≤ s.highLevel) ∧
    (∀ me s' woke, cacheDrainStep s = (some me, s', woke) →
      (woke = true ↔ s'.cache.length = s.lowLevel)) := by
  refine ⟨?_, ?_, ?_⟩
  · intro hr hhigh
    simp [cacheInput, hr, hhigh]
  · intro s' nf h
    by_cases hr : s.running
    · by_cases hhigh : s.cache.length ≥ s.highLevel
      · by_cases hp : policy x <;> simp [cacheInput, hr, hhigh, hp] at h
      · simp only [cacheInput, if_pos hr, if_neg hhigh] at h
        have hlt : s.cache.length < s.highLevel := by omega
        have := setInsert_length_le x s.cache
        cases h
        simp only []
        omega
    · simp [cacheInput, hr] at h
  · intro me s' woke h
    unfold cacheDrainStep at h
    cases hc : s.cache with
    | nil => rw [hc] at h; simp at h
    | cons y ys =>
        rw [hc] at h
        simp only [Prod.mk.injEq, Option.some.injEq] at h
        obtain ⟨h1, h2, h3⟩ := h
        subst h2
        subst h3
        simp

/-- C3 witness: a concrete watermark state within its bound. -/
theorem cachePipe_watermark_contract_witness :
    (1 : Nat) ≤ 2 ∧ ([4, 7] : List Nat).length ≤ 2 ∧
    (((⟨true, true, 1, 2, [4, 7]⟩ : CachePipeState).running = true →
      (⟨true, true, 1, 2, [4, 7]⟩ : CachePipeState).highLevel ≤
        ([4, 7] : List Nat).length →
      cacheInput (fun _ => false) ⟨true, true, 1, 2, [4, 7]⟩ 9 =
        (if (fun (_ : Nat) => false) 9 then .rejected else .blocked)) ∧
    (∀ s' nf, cacheInput (fun _ => false) ⟨true, true, 1, 2, [4, 7]⟩ 9 =
        .inserted s' nf → s'.cache.length ≤ 2) ∧
    (∀ me s' woke, cacheDrainStep ⟨true, true, 1, 2, [4, 7]⟩ =
        (some me, s', woke) → (woke = true ↔ s'.cache.length = 1))) :=
  ⟨by decide, by decide,
    cachePipe_watermark_contract (fun _ => false)
      ⟨true, true, 1, 2, [4, 7]⟩ 9 (by decide) (by decide)⟩

/-- C4: after `stop(graceful := true)`, the drain tail emits exactly the
buffered elements, in buffer order, and clears the buffer; after
`stop(graceful := false)` it emits nothing. -/
theorem cachePipe_graceful_drain (s : CachePipeState) :
    (cacheFinalDrain (cacheStop true s) true).1 = s.cache ∧
    (cacheFinalDrain (cacheStop true s) true).2.cache = [] ∧
    (∀ hh, (cacheFinalDrain (cacheStop false s) hh).1 = []) := by
  refine ⟨?_, ?_, ?_⟩ <;> simp [cacheFinalDrain, cacheStop]

/-- C5: with a graceful stop requested, a handler registered on port 0
and the mailbox holding element `e`, after all `n ≥ 1` workers run the
exit section the element has been emitted exactly once (appended once to
the emission log) and the mailbox is empty; with an empty mailbox nothing
is emitted. -/
theorem threadedPipe_inflight_exactly_once (n e : Nat) (acc : List Nat)
    (hn : 1 ≤ n) :
    (allWorkersExit n ⟨some e, acc, true, true⟩).emitted = acc ++ [e] ∧
    (allWorkersExit n ⟨some e, acc, true, true⟩).me = none ∧
    allWorkersExit n ⟨none, acc, true, true⟩ = ⟨none, acc, true, true⟩ := by
  cases n with
  | zero => omega
  | succ m =>
      have h1 : gracefulExit ⟨some e, acc, true, true⟩ =
          ⟨none, acc ++ [e], true, true⟩ := by
        simp [gracefulExit]
      have h2 : allWorkersExit (m + 1) ⟨some e, acc, true, true⟩ =
          ⟨none, acc ++ [e], true, true⟩ := by
        unfold allWorkersExit
        rw [Function.iterate_succ_apply, h1]
        exact allWorkersExit_empty_slot m (acc ++ [e]) true
      exact ⟨by rw [h2], by rw [h2], allWorkersExit_empty_slot (m + 1) acc true⟩

/-- C5 witness: two workers, element 42 in the mailbox. -/
theorem threadedPipe_inflight_exactly_once_witness :
    (1 : Nat) ≤ 2 ∧
    ((allWorkersExit 2 ⟨some 42, [5], true, true⟩).emitted = [5] ++ [42] ∧
    (allWorkersExit 2 ⟨some 42, [5], true, true⟩).me = none ∧
    allWorkersExit 2 ⟨none, [5], true, true⟩ = ⟨none, [5], true, true⟩) :=
  ⟨by decide, threadedPipe_inflight_exactly_once 2 42 [5] (by decide)⟩

/-- C6: `stop()` on a non-running Runloop is a no-op (state unchanged,
nothing interrupted, nothing joined); on a running Runloop it clears the
running flag, interrupts every child (in reverse construction order) and
joins the execution unit spawned by `start()` when it is joinable. -/
theorem runloop_stop_contract (s : RunloopState) :
    (s.running = false → runloopStop s = ⟨s, [], false⟩) ∧
    (s.running = true →
      (runloopStop s).state = { s with running := false } ∧
      (runloopStop s).interrupted = s.children.reverse ∧
      (∀ c ∈ s.children, c ∈ (runloopStop s).interrupted) ∧
      (runloopStop s).joined = s.joinable) := by
  constructor
  · intro h
    simp [runloopStop, h]
  · intro h
    refine ⟨by simp [runloopStop, h], by simp [runloopStop, h], ?_,
      by simp [runloopStop, h]⟩
    intro c hc
    simp [runloopStop, h]
    exact hc

/-- C6 witness: a running Runloop with three children, and a stopped
one. -/
theorem runloop_stop_contract_witness :
    ((⟨true, [1, 2, 3], true⟩ : RunloopState).running = true →
      (runloopStop ⟨true, [1, 2, 3], true⟩).state =
        { (⟨true, [1, 2, 3], true⟩ : RunloopState) with running := false } ∧
      (runloopStop ⟨true, [1, 2, 3], true⟩).interrupted =
        ([1, 2, 3] : List Nat).reverse ∧
      (∀ c ∈ ([1, 2, 3] : List Nat),
        c ∈ (runloopStop ⟨true, [1, 2, 3], true⟩).interrupted) ∧
      (runloopStop ⟨true, [1, 2, 3], true⟩).joined = true) ∧
    ((⟨false, [1], false⟩ : RunloopState).running = false →
      runloopStop ⟨false, [1], false⟩ = ⟨⟨false, [1], false⟩, [], false⟩) :=
  ⟨(runloop_stop_contract ⟨true, [1, 2, 3], true⟩).2,
    (runloop_stop_contract ⟨false, [1], false⟩).1⟩

/-- C7: `generate()` on each non-generating stage kind throws the
unsupported-operation error, and on a composite without a generator proxy
it throws the not-implemented error.  But `input()` on a Generator does
NOT raise the unsupported-operation error: the `std::string`-named
`input` overload in `BaseMediaProcessGenerator` does not override the
virtual `input(const size_t&, ...)`, so the call goes through the base
dispatch, whose `inputHandlers_` map is empty — `operator[]` creates an
empty handler and invoking it raises `bad_function_call` instead. -/
theorem generate_input_capability_errors :
    (∀ g f, classGenerate MPKind.pipe g f = .error .notSupport) ∧
    (∀ g f, classGenerate MPKind.join g f = .error .notSupport) ∧
    (∀ g f, classGenerate MPKind.split g f = .error .notSupport) ∧
    (∀ g f, classGenerate MPKind.multiplex g f = .error .notSupport) ∧
    (∀ g f, classGenerate MPKind.collapsar g f = .error .notSupport) ∧
    (∀ f, compositeGenerate InitState.initial f = .error .notImpl) ∧
    (baseInput [] 0 = (.error .badFunctionCall, [(0, none)]) ∧
      (Except.error MPError.badFunctionCall :
        Except MPError (Nat × Nat)) ≠ .error .notSupport) := by
  refine ⟨fun g f => rfl, fun g f => rfl, fun g f => rfl, fun g f => rfl,
    fun g f => rfl, fun f => rfl, rfl, by simp⟩

/-- C9: the watermark buffer has set semantics keyed on reference
identity: handing `input()` an element already buffered leaves the buffer
unchanged (the duplicate handoff is absorbed), and the drain step removes
the least element in the set's order, not the first-inserted one. -/
theorem cachePipe_set_semantics (policy : Nat → Bool) (s : CachePipeState)
    (x : Nat) (hs : List.Pairwise (· < ·) s.cache) (hm : x ∈ s.cache)
    (hr : s.running = true) (hlen : s.cache.length < s.highLevel) :
    cacheInput policy s x = .inserted s (decide (s.cache.length = 1)) ∧
    (∀ me s' w, cacheDrainStep s = (some me, s', w) →
      ∀ y ∈ s.cache, me ≤ y) := by
  constructor
  · have hins := setInsert_eq_of_mem x s.cache hs hm
    have hh : ¬ s.cache.length ≥ s.highLevel := by omega
    simp only [cacheInput, if_pos hr, if_neg hh, hins]
  · intro me s' w h
    unfold cacheDrainStep at h
    cases hc : s.cache with
    | nil => rw [hc] at h; simp at h
    | cons y ys =>
        rw [hc] at h
        simp only [Prod.mk.injEq, Option.some.injEq] at h
        obtain ⟨h1, _, _⟩ := h
        subst h1
        intro z hz
        rw [hc] at hs
        rcases List.mem_cons.mp hz with h | h
        · omega
        · exact Nat.le_of_lt ((List.pairwise_cons.mp hs).1 z h)

/-- C9 witness: buffer `{3, 5}` (5 buffered after 3 was, 3 least);
re-inserting 5 changes nothing, the drain removes 3. -/
theorem cachePipe_set_semantics_witness :
    List.Pairwise (· < ·) ([3, 5] : List Nat) ∧ (5 : Nat) ∈ [3, 5] ∧
    (cacheInput (fun _ => false) ⟨true, true, 0, 10, [3, 5]⟩ 5 =
      .inserted ⟨true, true, 0, 10, [3, 5]⟩ (decide (([3, 5] : List Nat).length = 1)) ∧
    (∀ me s' w, cacheDrainStep ⟨true, true, 0, 10, [3, 5]⟩ = (some me, s', w) →
      ∀ y ∈ ([3, 5] : List Nat), me ≤ y)) :=
  ⟨by decide, by decide,
    cachePipe_set_semantics (fun _ => false) ⟨true, true, 0, 10, [3, 5]⟩ 5
      (by decide) (by decide) (by decide) (by decide)⟩

/-- C10: the base input dispatch does not range-check: for any handler
map whose keys are the indices below `getInputCount()` and any index at
or above it, `input()` is not rejected with a range or
unsupported-operation error; `operator[]` creates an empty handler for
the unknown index and invoking it raises `bad_function_call`. -/
theorem baseInput_unknown_index (handlers : HandlerMap) (n index : Nat)
    (hkeys : ∀ p ∈ handlers, p.1 < n) (hidx : n ≤ index) :
    baseInput handlers index =
      (.error .badFunctionCall, handlers ++ [(index, none)]) ∧
    (baseInput handlers index).1 ≠ .error .outOfRange ∧
    (baseInput handlers index).1 ≠ .error .notSupport := by
  have hnone : hfind handlers index = none := by
    apply hfind_eq_none
    intro p hp
    have := hkeys p hp
    omega
  refine ⟨?_, ?_, ?_⟩ <;> simp [baseInput, hnone]

/-- C10 witness: one wired input port, index 5 asked for. -/
theorem baseInput_unknown_index_witness :
    (∀ p ∈ ([(0, some (7, 0))] : HandlerMap), p.1 < 1) ∧ (1 : Nat) ≤ 5 ∧
    (baseInput [(0, some (7, 0))] 5 =
      (.error .badFunctionCall, [(0, some (7, 0))] ++ [(5, none)]) ∧
    (baseInput [(0, some (7, 0))] 5).1 ≠ .error .outOfRange ∧
    (baseInput [(0, some (7, 0))] 5).1 ≠ .error .notSupport) :=
  ⟨by decide, by decide,
    baseInput_unknown_index [(0, some (7, 0))] 1 5 (by decide) (by decide)⟩

/-- C1 counterexample: building generator → pipe → join (the join wants
2 inputs, the pipe offers 1) fails with the arity error, yet at the
moment of the throw the level-0 generator's output handler is still
connected (wired to the pipe while processing level 1): partially-wired
state does survive on the externally held children. -/
theorem builder_mismatch_partial_wiring_counterexample :
    isOkB (buildComposite mismatchArgs) = false ∧
    errMsg (buildComposite mismatchArgs) = arityMsg ∧
    wfind (errState (buildComposite mismatchArgs)).wired (0, 0) =
      some (Handler.toChild 1 0) :=
  ⟨rfl, rfl, rfl⟩

/-- C8 counterexample: a composite headed by a single scalar Multiplex
with zero input ports — not a Generator — still gets the generator
proxy installed, and its `generate()` forwards to that child and returns
the child's result. -/
theorem generator_passthrough_counterexample :
    isOkB (buildComposite muxHeadArgs) = true ∧
    muxStage.kind ≠ MPKind.generator ∧
    (okState (buildComposite muxHeadArgs)).generator = some muxStage.sid ∧
    compositeGenerate (okState (buildComposite muxHeadArgs))
      (fun _ => true) = .ok true ∧
    compositeGenerate (okState (buildComposite muxHeadArgs))
      (fun _ => false) = .ok false :=
  ⟨rfl, by decide, rfl, rfl, rfl⟩

/-! ## Builder lemmas -/

theorem sumInputs_cons (mp : Stage) (l : List Stage) :
    sumInputs (mp :: l) = mp.inputCount + sumInputs l := by
  simp [sumInputs]

theorem sumOutputs_cons (mp : Stage) (l : List Stage) :
    sumOutputs (mp :: l) = mp.outputCount + sumOutputs l := by
  simp [sumOutputs]

theorem levelFuncs_length (mps : List Stage) :
    (levelFuncs mps).length = sumInputs mps := by
  induction mps with
  | nil => rfl
  | cons mp rest ih =>
      simp only [levelFuncs, List.foldr_cons, List.length_append,
        List.length_map, List.length_range, sumInputs_cons] at *
      omega

theorem collectInputs_fields (mps : List Stage) (st : InitState) :
    (collectInputs mps st).inputCount = st.inputCount + sumInputs mps ∧
    (collectInputs mps st).outputCount = st.outputCount ∧
    (collectInputs mps st).generator = st.generator ∧
    (collectInputs mps st).wired = st.wired ∧
    (collectInputs mps st).mpsPrev = st.mpsPrev ∧
    (collectInputs mps st).prevOutputCount = st.prevOutputCount := by
  induction mps generalizing st with
  | nil => simp [collectInputs, sumInputs]
  | cons mp rest ih =>
      have hstep : collectInputs (mp :: rest) st =
          collectInputs rest
            { st with
              mps := st.mps ++ [mp],
              inputHandlers := st.inputHandlers ++
                (List.range mp.inputCount).map
                  (fun i => (st.inputCount + i, (mp.sid, i))),
              inputCount := st.inputCount + mp.inputCount } := by
        simp [collectInputs]
      rw [hstep]
      obtain ⟨i1, i2, i3, i4, i5, i6⟩ := ih _
      refine ⟨?_, i2, i3, i4, i5, i6⟩
      rw [i1]
      simp only [sumInputs_cons]
      omega

theorem genStep_ne_zero (level : Nat) (a : Arg) (st : InitState)
    (h : level ≠ 0) : genStep level a st = st := by
  cases a with
  | scalar mp => simp [genStep, h]
  | vec l => rfl

theorem genStep_fields (level : Nat) (a : Arg) (st : InitState) :
    (genStep level a st).inputCount = st.inputCount ∧
    (genStep level a st).outputCount = st.outputCount ∧
    (genStep level a st).wired = st.wired ∧
    (genStep level a st).mpsPrev = st.mpsPrev ∧
    (genStep level a st).prevOutputCount = st.prevOutputCount := by
  cases a with
  | scalar mp =>
      by_cases h : level = 0 ∧ mp.inputCount = 0 <;> simp [genStep, h]
  | vec l => simp [genStep]

theorem genStep_zero_initial_generator (a : Arg) (st : InitState)
    (h : st.generator = none) : (genStep 0 a st).generator = argGen a := by
  cases a with
  | scalar mp =>
      by_cases hi : mp.inputCount = 0 <;> simp [genStep, argGen, hi, h]
  | vec l => simp [genStep, argGen, h]

theorem step0_fields (a : Arg) (st : InitState) :
    (step0 a st).inputCount = st.inputCount + sumInputs a.stages ∧
    (step0 a st).outputCount = st.outputCount ∧
    (step0 a st).wired = st.wired ∧
    (step0 a st).mpsPrev = a.stages ∧
    (step0 a st).prevOutputCount = sumOutputs a.stages ∧
    (step0 a st).generator = (genStep 0 a st).generator := by
  unfold step0 savePrev
  obtain ⟨c1, c2, c3, c4, c5, c6⟩ := collectInputs_fields a.stages (genStep 0 a st)
  obtain ⟨g1, g2, g3, g4, g5⟩ := genStep_fields 0 a st
  exact ⟨by simp [c1, g1], by simp [c2, g2], by simp [c4, g3], by simp,
    by simp, by simp [c3]⟩

theorem stepK_fields (a : Arg) (st : InitState) :
    (stepK a st).inputCount = st.inputCount ∧
    (stepK a st).outputCount = st.outputCount ∧
    (stepK a st).generator = st.generator ∧
    (stepK a st).mpsPrev = a.stages ∧
    (stepK a st).prevOutputCount = sumOutputs a.stages ∧
    (stepK a st).wired = wirePrev st.mpsPrev (levelFuncs a.stages) st.wired := by
  simp [stepK, savePrev]

theorem wireTerminal_fields (st : InitState) :
    (wireTerminal st).inputCount = st.inputCount ∧
    (wireTerminal st).generator = st.generator ∧
    (wireTerminal st).outputCount = st.outputCount + sumOutputs st.mpsPrev := by
  simp [wireTerminal]

theorem initArgs_nil (level : Nat) (st : InitState) :
    initArgs level [] st = .ok (wireTerminal st) := rfl

theorem initArgs_cons_zero (a : Arg) (rest : List Arg) (st : InitState) :
    initArgs 0 (a :: rest) st = initArgs 1 rest (step0 a st) := by
  simp [initArgs, step0]

theorem initArgs_cons_mismatch (level : Nat) (a : Arg) (rest : List Arg)
    (st : InitState) (hl : level ≠ 0)
    (hm : sumInputs a.stages ≠ st.prevOutputCount) :
    initArgs level (a :: rest) st =
      .error ⟨arityMsg, { st with mps := st.mps ++ a.stages }⟩ := by
  unfold initArgs
  rw [genStep_ne_zero level a st hl]
  simp [hl, levelFuncs_length, hm]

theorem initArgs_cons_matched (level : Nat) (a : Arg) (rest : List Arg)
    (st : InitState) (hl : level ≠ 0)
    (hm : sumInputs a.stages = st.prevOutputCount) :
    initArgs level (a :: rest) st = initArgs (level + 1) rest (stepK a st) := by
  conv_lhs => unfold initArgs
  rw [genStep_ne_zero level a st hl]
  simp [hl, levelFuncs_length, hm, stepK, savePrev]

theorem initArgs_tail_preserves (rest : List Arg) :
    ∀ level st st', level ≠ 0 → initArgs level rest st = .ok st' →
      st'.inputCount = st.inputCount ∧ st'.generator = st.generator := by
  induction rest with
  | nil =>
      intro level st st' _ h
      rw [initArgs_nil] at h
      cases h
      exact ⟨(wireTerminal_fields st).1, (wireTerminal_fields st).2.1⟩
  | cons a rest' ih =>
      intro level st st' hl h
      by_cases hm : sumInputs a.stages = st.prevOutputCount
      · rw [initArgs_cons_matched level a rest' st hl hm] at h
        obtain ⟨p1, p2⟩ := ih (level + 1) (stepK a st) st' (by omega) h
        obtain ⟨k1, _, k3, _⟩ := stepK_fields a st
        exact ⟨by rw [p1, k1], by rw [p2, k3]⟩
      · rw [initArgs_cons_mismatch level a rest' st hl hm] at h
        cases h

theorem lastStages_cons (st st2 : InitState) (a : Arg) (rest : List Arg)
    (h : st2.mpsPrev = a.stages) :
    lastStages st2 rest = lastStages st (a :: rest) := by
  cases rest with
  | nil => simp [lastStages, h]
  | cons b rest' =>
      unfold lastStages
      rw [List.getLast?_cons_cons,
        List.getLast?_eq_getLast (b :: rest') (List.cons_ne_nil b rest')]

theorem initArgs_outputCount (rest : List Arg) :
    ∀ level st st', initArgs level rest st = .ok st' →
      st'.outputCount = st.outputCount + sumOutputs (lastStages st rest) := by
  induction rest with
  | nil =>
      intro level st st' h
      rw [initArgs_nil] at h
      cases h
      exact (wireTerminal_fields st).2.2
  | cons a rest' ih =>
      intro level st st' h
      by_cases hl : level = 0
      · subst hl
        rw [initArgs_cons_zero] at h
        have hrec := ih 1 (step0 a st) st' h
        rw [hrec, (step0_fields a st).2.1,
          lastStages_cons st (step0 a st) a rest' (step0_fields a st).2.2.2.1]
      · by_cases hm : sumInputs a.stages = st.prevOutputCount
        · rw [initArgs_cons_matched level a rest' st hl hm] at h
          have hrec := ih (level + 1) (stepK a st) st' h
          rw [hrec, (stepK_fields a st).2.1,
            lastStages_cons st (stepK a st) a rest' (stepK_fields a st).2.2.2.1]
        · rw [initArgs_cons_mismatch level a rest' st hl hm] at h
          cases h

/-! ## Claim theorems (composite builder) -/

/-- C2: a successfully constructed composite's `getInputCount()` is the
sum of the level-0 stages' input-port counts, and its `getOutputCount()`
is the sum of the last level's stages' output-port counts. -/
theorem composite_port_counts (a : Arg) (rest : List Arg) (st' : InitState)
    (hok : buildComposite (a :: rest) = .ok st') :
    st'.inputCount = sumInputs a.stages ∧
    st'.outputCount =
      sumOutputs (((a :: rest).getLast (List.cons_ne_nil a rest)).stages) := by
  unfold buildComposite at hok
  rw [initArgs_cons_zero] at hok
  constructor
  · have h1 := (initArgs_tail_preserves rest 1 (step0 a InitState.initial) st'
      (by omega) hok).1
    rw [h1, (step0_fields a InitState.initial).1]
    simp [InitState.initial]
  · have h2 := initArgs_outputCount rest 1 (step0 a InitState.initial) st' hok
    rw [h2, (step0_fields a InitState.initial).2.1,
      lastStages_cons InitState.initial (step0 a InitState.initial) a rest
        (step0_fields a InitState.initial).2.2.2.1]
    have h3 : lastStages InitState.initial (a :: rest) =
        ((a :: rest).getLast (List.cons_ne_nil a rest)).stages := by
      unfold lastStages
      rw [List.getLast?_eq_getLast (a :: rest) (List.cons_ne_nil a rest)]
    rw [h3]
    simp [InitState.initial]

/-- C2 witness: a one-level composite of a single 1-in/1-out pipe. -/
theorem composite_port_counts_witness :
    buildComposite [Arg.scalar pipeStage] =
      .ok ⟨1, 1, [pipeStage], 1, [pipeStage], [(0, (1, 0))], none,
        [((1, 0), Handler.trampoline 0)]⟩ ∧
    ((⟨1, 1, [pipeStage], 1, [pipeStage], [(0, (1, 0))], none,
        [((1, 0), Handler.trampoline 0)]⟩ : InitState).inputCount =
      sumInputs (Arg.scalar pipeStage).stages ∧
      (⟨1, 1, [pipeStage], 1, [pipeStage], [(0, (1, 0))], none,
        [((1, 0), Handler.trampoline 0)]⟩ : InitState).outputCount =
      sumOutputs ((([Arg.scalar pipeStage]).getLast
        (List.cons_ne_nil (Arg.scalar pipeStage) [])).stages)) :=
  ⟨rfl, composite_port_counts (Arg.scalar pipeStage) [] _ rfl⟩

/-- C8 (amended): the composite's generator passthrough is installed iff
level 0 was supplied as a single scalar stage with zero input ports,
regardless of that stage's kind: then `generate()` forwards to that
child's `generate()` and returns its result (in particular for a single
Generator); for a scalar first stage with inputs, or a vector first
level, no passthrough is installed and `generate()` raises the
not-implemented error instead of forwarding. -/
theorem generator_passthrough (a : Arg) (rest : List Arg) (st' : InitState)
    (hok : buildComposite (a :: rest) = .ok st') :
    st'.generator = argGen a ∧
    (∀ f, compositeGenerate st' f =
      match argGen a with
      | some g => .ok (f g)
      | none => .error .notImpl) := by
  unfold buildComposite at hok
  rw [initArgs_cons_zero] at hok
  have h1 := (initArgs_tail_preserves rest 1 (step0 a InitState.initial) st'
    (by omega) hok).2
  have h2 : (step0 a InitState.initial).generator = argGen a := by
    rw [(step0_fields a InitState.initial).2.2.2.2.2]
    exact genStep_zero_initial_generator a InitState.initial rfl
  have hg : st'.generator = argGen a := by rw [h1, h2]
  refine ⟨hg, fun f => ?_⟩
  unfold compositeGenerate
  rw [hg]

/-- C8 witness: a generator-headed composite forwards `generate()` to the
generator. -/
theorem generator_passthrough_witness :
    buildComposite [Arg.scalar genStage, Arg.scalar sinkStage] =
      .ok ⟨0, 0, [sinkStage], 0, [genStage, sinkStage], [], some 0,
        [((0, 0), Handler.toChild 3 0)]⟩ ∧
    ((⟨0, 0, [sinkStage], 0, [genStage, sinkStage], [], some 0,
        [((0, 0), Handler.toChild 3 0)]⟩ : InitState).generator =
      argGen (Arg.scalar genStage) ∧
    (∀ f, compositeGenerate
        (⟨0, 0, [sinkStage], 0, [genStage, sinkStage], [], some 0,
          [((0, 0), Handler.toChild 3 0)]⟩ : InitState) f =
      match argGen (Arg.scalar genStage) with
      | some g => .ok (f g)
      | none => .error .notImpl)) :=
  ⟨rfl,
    generator_passthrough (Arg.scalar genStage) [Arg.scalar sinkStage] _ rfl⟩

/-! ## Matched-prefix simulation of the builder, for C1 -/

theorem matchedPre_cons_zero (a : Arg) (rest : List Arg) (st : InitState) :
    matchedPre 0 st (a :: rest) = matchedPre 1 (step0 a st) rest := by
  simp [matchedPre]

theorem matchedPre_cons_pos (level : Nat) (a : Arg) (rest : List Arg)
    (st : InitState) (hl : level ≠ 0) :
    matchedPre level st (a :: rest) = true ↔
      sumInputs a.stages = st.prevOutputCount ∧
        matchedPre (level + 1) (stepK a st) rest = true := by
  simp [matchedPre, hl]

theorem runPre_nil (level : Nat) (st : InitState) : runPre level st [] = st :=
  rfl

theorem runPre_cons_zero (a : Arg) (rest : List Arg) (st : InitState) :
    runPre 0 st (a :: rest) = runPre 1 (step0 a st) rest := by
  simp [runPre]

theorem runPre_cons_pos (level : Nat) (a : Arg) (rest : List Arg)
    (st : InitState) (hl : level ≠ 0) :
    runPre level st (a :: rest) = runPre (level + 1) (stepK a st) rest := by
  simp [runPre, hl]

theorem initArgs_matched_append (pre : List Arg) :
    ∀ level st (rest' : List Arg), matchedPre level st pre = true →
      initArgs level (pre ++ rest') st =
        initArgs (level + pre.length) rest' (runPre level st pre) := by
  induction pre with
  | nil =>
      intro level st rest' _
      simp [runPre]
  | cons a pre' ih =>
      intro level st rest' hm
      by_cases hl : level = 0
      · subst hl
        rw [List.cons_append, initArgs_cons_zero, runPre_cons_zero,
          ih 1 (step0 a st) rest' (by rw [← matchedPre_cons_zero]; exact hm)]
        congr 1
        simp only [List.length_cons]
        omega
      · obtain ⟨h1, h2⟩ := (matchedPre_cons_pos level a pre' st hl).mp hm
        rw [List.cons_append, initArgs_cons_matched level a _ st hl h1,
          runPre_cons_pos level a pre' st hl,
          ih (level + 1) (stepK a st) rest' h2]
        congr 1
        simp only [List.length_cons]
        omega

theorem lastArgStages_singleton (a : Arg) :
    lastArgStages [a] = a.stages := by
  simp [lastArgStages]

theorem lastArgStages_cons_cons (a b : Arg) (l : List Arg) :
    lastArgStages (a :: b :: l) = lastArgStages (b :: l) := by
  unfold lastArgStages
  rw [List.getLast?_cons_cons]

theorem runPre_last (pre : List Arg) :
    ∀ level st, pre ≠ [] →
      (runPre level st pre).mpsPrev = lastArgStages pre ∧
      (runPre level st pre).prevOutputCount =
        sumOutputs (lastArgStages pre) := by
  induction pre with
  | nil => intro level st h; exact absurd rfl h
  | cons a pre' ih =>
      intro level st _
      cases pre' with
      | nil =>
          rw [lastArgStages_singleton]
          by_cases hl : level = 0
          · subst hl
            rw [runPre_cons_zero, runPre_nil]
            exact ⟨(step0_fields a st).2.2.2.1, (step0_fields a st).2.2.2.2.1⟩
          · rw [runPre_cons_pos level a [] st hl, runPre_nil]
            exact ⟨(stepK_fields a st).2.2.2.1, (stepK_fields a st).2.2.2.2.1⟩
      | cons b pre'' =>
          rw [lastArgStages_cons_cons]
          by_cases hl : level = 0
          · subst hl
            rw [runPre_cons_zero]
            exact ih 1 (step0 a st) (List.cons_ne_nil b pre'')
          · rw [runPre_cons_pos level a (b :: pre'') st hl]
            exact ih (level + 1) (stepK a st) (List.cons_ne_nil b pre'')

theorem prevPorts_sid (l : List Stage) (p : Nat × Nat)
    (hp : p ∈ prevPorts l) : p.1 ∈ stageSids l := by
  induction l with
  | nil => cases hp
  | cons mp rest ih =>
      simp only [prevPorts, List.foldr_cons, List.mem_append] at hp
      simp only [stageSids, List.map_cons, List.mem_cons]
      rcases hp with h | h
      · obtain ⟨i, _, rfl⟩ := List.mem_map.mp h
        exact .inl rfl
      · exact .inr (ih h)

theorem wirePrev_foldl_sids (zs : List ((Nat × Nat) × (Nat × Nat))) :
    ∀ (w : Wiring) (z : Nat),
      z ∈ wiredSids (List.foldl
        (fun w pf => ((pf.1.1, pf.1.2), Handler.toChild pf.2.1 pf.2.2) :: w)
        w zs) →
      z ∈ wiredSids w ∨ ∃ pf ∈ zs, pf.1.1 = z := by
  induction zs with
  | nil => intro w z h; exact .inl h
  | cons pf zs' ih =>
      intro w z h
      rw [List.foldl_cons] at h
      rcases ih _ z h with h2 | h2
      · simp only [wiredSids, List.map_cons, List.mem_cons] at h2
        rcases h2 with h3 | h3
        · exact .inr ⟨pf, List.mem_cons_self pf zs', h3.symm⟩
        · exact .inl h3
      · obtain ⟨q, hq, hz⟩ := h2
        exact .inr ⟨q, List.mem_cons_of_mem pf hq, hz⟩

theorem wirePrev_sids (prev : List Stage) (funcs : List (Nat × Nat))
    (w : Wiring) (z : Nat) (h : z ∈ wiredSids (wirePrev prev funcs w)) :
    z ∈ wiredSids w ∨ z ∈ stageSids prev := by
  rcases wirePrev_foldl_sids (List.zip (prevPorts prev) funcs) w z h with
    h2 | h2
  · exact .inl h2
  · obtain ⟨⟨p, f⟩, hpf, hz⟩ := h2
    have hmem := (List.of_mem_zip hpf).1
    exact .inr (hz ▸ prevPorts_sid prev p hmem)

theorem argsSids_cons (a : Arg) (rest : List Arg) :
    argsSids (a :: rest) = stageSids a.stages ++ argsSids rest := by
  simp [argsSids]

theorem runPre_wired_sub (pre : List Arg) :
    ∀ level st z, z ∈ wiredSids (runPre level st pre).wired →
      z ∈ wiredSids st.wired ∨ z ∈ stageSids st.mpsPrev ∨
        z ∈ argsSids pre.dropLast := by
  induction pre with
  | nil =>
      intro level st z h
      rw [runPre_nil] at h
      exact .inl h
  | cons a pre' ih =>
      intro level st z h
      cases pre' with
      | nil =>
          by_cases hl : level = 0
          · subst hl
            rw [runPre_cons_zero, runPre_nil] at h
            rw [(step0_fields a st).2.2.1] at h
            exact .inl h
          · rw [runPre_cons_pos level a [] st hl, runPre_nil] at h
            rw [(stepK_fields a st).2.2.2.2.2] at h
            rcases wirePrev_sids st.mpsPrev (levelFuncs a.stages) st.wired z h
              with h2 | h2
            · exact .inl h2
            · exact .inr (.inl h2)
      | cons b pre'' =>
          have hdrop : (a :: b :: pre'').dropLast =
              a :: (b :: pre'').dropLast := List.dropLast_cons₂
          have hcases : z ∈ wiredSids (runPre (if level = 0 then 1 else level + 1)
              (if level = 0 then step0 a st else stepK a st) (b :: pre'')).wired →
              z ∈ wiredSids st.wired ∨ z ∈ stageSids st.mpsPrev ∨
                z ∈ argsSids ((a :: b :: pre'').dropLast) := by
            intro h2
            by_cases hl : level = 0 <;> simp only [hl, if_pos, if_neg, ite_true,
              ite_false] at h2
            · rcases ih 1 (step0 a st) z h2 with h3 | h3 | h3
              · rw [(step0_fields a st).2.2.1] at h3
                exact .inl h3
              · rw [(step0_fields a st).2.2.2.1] at h3
                refine .inr (.inr ?_)
                rw [hdrop, argsSids_cons]
                exact List.mem_append.mpr (.inl h3)
              · refine .inr (.inr ?_)
                rw [hdrop, argsSids_cons]
                exact List.mem_append.mpr (.inr h3)
            · rcases ih (level + 1) (stepK a st) z h2 with h3 | h3 | h3
              · rw [(stepK_fields a st).2.2.2.2.2] at h3
                rcases wirePrev_sids st.mpsPrev (levelFuncs a.stages) st.wired
                  z h3 with h4 | h4
                · exact .inl h4
                · exact .inr (.inl h4)
              · rw [(stepK_fields a st).2.2.2.1] at h3
                refine .inr (.inr ?_)
                rw [hdrop, argsSids_cons]
                exact List.mem_append.mpr (.inl h3)
              · refine .inr (.inr ?_)
                rw [hdrop, argsSids_cons]
                exact List.mem_append.mpr (.inr h3)
          apply hcases
          by_cases hl : level = 0
          · subst hl
            rw [runPre_cons_zero] at h
            simpa using h
          · rw [runPre_cons_pos level a (b :: pre'') st hl] at h
            simpa [hl] using h

theorem wfind_eq_none (w : Wiring) (key : Nat × Nat)
    (h : key.1 ∉ wiredSids w) : wfind w key = none := by
  induction w with
  | nil => rfl
  | cons e rest ih =>
      obtain ⟨k, v⟩ := e
      simp only [wiredSids, List.map_cons, List.mem_cons, not_or] at h
      simp only [wfind]
      rw [if_neg ?_]
      · exact ih (by simpa [wiredSids] using h.2)
      · intro he
        exact h.1 (by rw [he])

/-- C1 (amended): when the levels before the mismatch all pass the arity
check and level `k`'s input total differs from level `k-1`'s output
total, construction fails with the arity-mismatch error, and at the
moment the error is raised none of level `k-1`'s output handlers has
been connected (the check precedes that level's wiring) — though, as the
counterexample shows, output handlers wired while processing the earlier
levels remain connected on the externally held child stages. -/
theorem builder_mismatch_error_wiring (pre : List Arg) (a : Arg)
    (rest : List Arg) (hne : pre ≠ [])
    (hpre : matchedPre 0 InitState.initial pre = true)
    (hmm : sumInputs a.stages ≠ sumOutputs (lastArgStages pre))
    (hdisj : ∀ z ∈ stageSids (lastArgStages pre),
      z ∉ argsSids pre.dropLast) :
    isOkB (buildComposite (pre ++ a :: rest)) = false ∧
    errMsg (buildComposite (pre ++ a :: rest)) = arityMsg ∧
    ∀ mp ∈ lastArgStages pre, ∀ p,
      wfind (errState (buildComposite (pre ++ a :: rest))).wired
        (mp.sid, p) = none := by
  have hsim := initArgs_matched_append pre 0 InitState.initial (a :: rest) hpre
  have hlvl : 0 + pre.length ≠ 0 := by
    cases pre with
    | nil => exact absurd rfl hne
    | cons x xs => simp
  have hlast := runPre_last pre 0 InitState.initial hne
  have hmm2 : sumInputs a.stages ≠
      (runPre 0 InitState.initial pre).prevOutputCount := by
    rw [hlast.2]; exact hmm
  unfold buildComposite
  rw [hsim, initArgs_cons_mismatch (0 + pre.length) a rest
    (runPre 0 InitState.initial pre) hlvl hmm2]
  refine ⟨rfl, rfl, ?_⟩
  intro mp hmp p
  apply wfind_eq_none
  intro hz
  rcases runPre_wired_sub pre 0 InitState.initial mp.sid hz with h2 | h2 | h2
  · simp [InitState.initial, wiredSids] at h2
  · simp [InitState.initial, stageSids] at h2
  · exact hdisj mp.sid (List.mem_map_of_mem Stage.sid hmp) h2

/-- C1 witness: generator → pipe matched, then a 2-input join
mismatches; the error carries no wiring for the pipe (level `k-1`). -/
theorem builder_mismatch_error_wiring_witness :
    matchedPre 0 InitState.initial
      [Arg.scalar genStage, Arg.scalar pipeStage] = true ∧
    sumInputs (Arg.scalar joinStage).stages ≠
      sumOutputs (lastArgStages [Arg.scalar genStage, Arg.scalar pipeStage]) ∧
    (isOkB (buildComposite ([Arg.scalar genStage, Arg.scalar pipeStage] ++
        [Arg.scalar joinStage])) = false ∧
     errMsg (buildComposite ([Arg.scalar genStage, Arg.scalar pipeStage] ++
        [Arg.scalar joinStage])) = arityMsg ∧
     ∀ mp ∈ lastArgStages [Arg.scalar genStage, Arg.scalar pipeStage], ∀ p,
       wfind (errState (buildComposite
          ([Arg.scalar genStage, Arg.scalar pipeStage] ++
            [Arg.scalar joinStage]))).wired (mp.sid, p) = none) :=
  ⟨by decide, by decide,
    builder_mismatch_error_wiring
      [Arg.scalar genStage, Arg.scalar pipeStage] (Arg.scalar joinStage) []
      (by decide) (by decide) (by decide) (by decide)⟩

end MediaProcess
